import Mathlib

/-!
Verification of the AgentDog observability plugin (src/src/index.ts, the
current version of the module: trace correlator, turn reconstructor,
registration state machine, error buffer, transport).

The TypeScript is shallowly embedded: module-level mutable state becomes
explicit state records, event handlers become pure functions from an event
payload and a state to (emitted events, new state), and the network is an
oracle parameter (`FetchOutcome`) describing what `fetch` would have done.
"Emitting" an event means handing its payload to `sendEvent`; the
registration gate in front of the actual POST is modelled separately
(`sendEventCalls`, `syncConfigCalls`).
-/

namespace AgentDog

/-! ## Data model: content blocks and messages (the `event.messages` shape) -/

/-- Fields a `toolCall` content block may carry; the source reads
`toolBlock.name || toolBlock.toolName || ''` and
`toolBlock.id || toolBlock.toolCallId || ''`, so each is optional. -/
structure ToolBlockData where
  name : Option String := none
  toolName : Option String := none
  id : Option String := none
  toolCallId : Option String := none
deriving DecidableEq, Repr

/-- A typed content block as the reconstructor distinguishes them
(`b?.type === 'text' | 'thinking' | 'toolCall'`, anything else is other,
e.g. a tool-result block). -/
inductive Block where
  | text (s : String)
  | thinking (s : String)
  | toolCall (d : ToolBlockData)
  | other
deriving DecidableEq, Repr

/-- A message's `content` in the host history: a plain string, an array of
blocks, or anything else (`null`, an object, ...). -/
inductive Content where
  | str (s : String)
  | blocks (bs : List Block)
  | null
deriving DecidableEq, Repr

structure Message where
  role : String
  content : Content
deriving DecidableEq, Repr

/-- JavaScript `a || b` on an optional string: the left value when it is
present and non-empty (truthy), otherwise the right value. -/
def truthyOr (a : Option String) (b : String) : String :=
  match a with
  | some s => if s == "" then b else s
  | none => b

/-! ## Trace correlator (`sessionTraces`, getOrCreateTraceId, clearTraceId)

`generateTraceId()` in the source builds a time-plus-random identifier whose
only used property is global freshness; the model draws identifiers from a
counter `nextId`, so a freshly generated identifier is distinct from every
identifier currently recorded (the `TraceWF` invariant). -/

structure TraceState where
  traces : List (String × Nat) := []
  nextId : Nat := 0
deriving DecidableEq, Repr

/-- `sessionKey || 'default'`: an absent or empty key becomes the sentinel. -/
def normKey : Option String → String
  | some s => if s == "" then "default" else s
  | none => "default"

def lookupTrace (k : String) : List (String × Nat) → Option Nat
  | [] => none
  | (k₁, t) :: rest => if k₁ == k then some t else lookupTrace k rest

def getOrCreateTraceId (sk : Option String) (s : TraceState) : Nat × TraceState :=
  let key := normKey sk
  match lookupTrace key s.traces with
  | some t => (t, s)
  | none => (s.nextId, { traces := (key, s.nextId) :: s.traces, nextId := s.nextId + 1 })

def clearTraceId (sk : Option String) (s : TraceState) : TraceState :=
  { s with traces := s.traces.filter (fun p => !(p.1 == normKey sk)) }

/-- Freshness invariant of the model: every recorded trace id is below the
counter, so the next generated id differs from all recorded ones. -/
def TraceWF (s : TraceState) : Bool :=
  s.traces.all (fun p => p.2 < s.nextId)

/-! ## Outbound events (the payloads handed to sendEvent) -/

inductive Ev where
  | message (traceId : Nat) (role content thinking : String)
  | toolCall (traceId : Nat) (name toolCallId : String) (isError : Bool)
  | usage (traceId : Nat)
deriving DecidableEq, Repr

def Ev.trace : Ev → Nat
  | .message t _ _ _ => t
  | .toolCall t _ _ _ => t
  | .usage t => t

def isMessageEv : Ev → Bool
  | .message _ _ _ _ => true
  | _ => false

def isUsageEv : Ev → Bool
  | .usage _ => true
  | _ => false

/-! ## Turn reconstructor (agent_end handler, src/src/index.ts lines 734-825) -/

/-- The backward turn-start test on one message: role `user` and "real"
content — a plain string body, or an array with at least one `text` block
(`Array.isArray(m.content) ? m.content.some(b => b?.type === 'text')
: typeof m.content === 'string'`). -/
def hasRealContent : Content → Bool
  | .str _ => true
  | .blocks bs => bs.any (fun b => match b with | .text _ => true | _ => false)
  | .null => false

def isRealUser (m : Message) : Bool :=
  m.role == "user" && hasRealContent m.content

/-- Index of the last message satisfying `isRealUser`: the functional
rendering of the backward `for` loop that breaks at the first hit. -/
def lastRealUserIdx? : List Message → Option Nat
  | [] => none
  | m :: rest =>
    match lastRealUserIdx? rest with
    | some r => some (r + 1)
    | none => if isRealUser m then some 0 else none

/-- `turnStartIdx`, with the source's `-1` sentinel when no real user
message exists. -/
def turnStartIdx (msgs : List Message) : Int :=
  match lastRealUserIdx? msgs with
  | some n => (n : Int)
  | none => -1

/-- The messages the forward scan visits: indices `turnStartIdx + 1` to the
end (all of them when the index is `-1`). -/
def scannedTurn (msgs : List Message) : List Message :=
  msgs.drop ((turnStartIdx msgs + 1).toNat)

/-- `toolBlock.name || toolBlock.toolName || ''` -/
def toolCallName (d : ToolBlockData) : String :=
  truthyOr d.name (truthyOr d.toolName "")

/-- `toolBlock.id || toolBlock.toolCallId || ''` -/
def toolCallIdent (d : ToolBlockData) : String :=
  truthyOr d.id (truthyOr d.toolCallId "")

/-- Accumulator of the forward scan: tool-call events found so far (name,
identifier), the overwritten final text and the appended thinking text. -/
structure ScanAcc where
  toolEvents : List (String × String) := []
  finalContent : String := ""
  finalThinking : String := ""
deriving DecidableEq, Repr

/-- One content block of an assistant message: a `text` block overwrites
`finalContent` (`finalContent = block.text || ''`), a `thinking` block
appends (`finalThinking += (block.thinking || '') + '\n'`). -/
def accumulateBlock (acc : ScanAcc) : Block → ScanAcc
  | .text s => { acc with finalContent := s }
  | .thinking s => { acc with finalThinking := acc.finalThinking ++ s ++ "\n" }
  | _ => acc

def toolEventOf : Block → Option (String × String)
  | .toolCall d => some (toolCallName d, toolCallIdent d)
  | _ => none

/-- One message of the forward scan: only assistant messages whose content
is an array are inspected; their `toolCall` blocks are emitted in order and
then every block feeds the text/thinking accumulators. -/
def processMessage (acc : ScanAcc) (m : Message) : ScanAcc :=
  if m.role == "assistant" then
    match m.content with
    | .blocks bs =>
      bs.foldl accumulateBlock
        { acc with toolEvents := acc.toolEvents ++ bs.filterMap toolEventOf }
    | _ => acc
  else acc

def scanTurn (msgs : List Message) : ScanAcc :=
  (scannedTurn msgs).foldl processMessage {}

/-- Model of JavaScript `String.prototype.trim` (drop leading and
trailing whitespace); written with structural recursion so that concrete
runs reduce inside the kernel. -/
def trimStr (s : String) : String :=
  ⟨((s.data.dropWhile Char.isWhitespace).reverse.dropWhile Char.isWhitespace).reverse⟩

/-- Usage payload of `agent_end`; only its presence matters here. -/
structure Usage where
  input : Nat := 0
  output : Nat := 0
  totalTokens : Nat := 0
deriving DecidableEq, Repr

/-- The `agent_end` payload (session key passed separately). `messages` is
`some` exactly when `event.messages && Array.isArray(event.messages)`. -/
structure AgentEndEvent where
  messages : Option (List Message) := none
  usage : Option Usage := none
  model : String := ""
  provider : String := ""
  stopReason : String := ""
deriving DecidableEq, Repr

/-- The accumulated final text of the turn after trimming (empty when no
message history was supplied). -/
def accFinalText (e : AgentEndEvent) : String :=
  match e.messages with
  | some msgs => trimStr (scanTurn msgs).finalContent
  | none => ""

/-- The `agent_end` handler: open-or-join the trace, reconstruct the turn
(tool_call events with `is_error: false`, then the final assistant message
when the trimmed text is non-empty), emit a usage event when usage data is
present, and close the trace. -/
def agentEndEvents (sk : Option String) (e : AgentEndEvent) (ts : TraceState) :
    List Ev × TraceState :=
  let p := getOrCreateTraceId sk ts
  let turnEvs :=
    match e.messages with
    | some msgs =>
      let acc := scanTurn msgs
      let fc := trimStr acc.finalContent
      let ft := trimStr acc.finalThinking
      (acc.toolEvents.map fun q => Ev.toolCall p.1 q.1 q.2 false) ++
        (if fc == "" then [] else [Ev.message p.1 "assistant" fc ft])
    | none => []
  let usageEvs := match e.usage with | some _ => [Ev.usage p.1] | none => []
  (turnEvs ++ usageEvs, clearTraceId sk p.2)

/-! ## Live handlers: message_received and after_tool_call -/

/-- The `message_received` handler: open-or-join the trace and emit one
user message event (the other payload fields are not claim-relevant). -/
def messageReceivedEvents (sk : Option String) (content : String) (ts : TraceState) :
    List Ev × TraceState :=
  let p := getOrCreateTraceId sk ts
  ([Ev.message p.1 "user" content ""], p.2)

/-! ## Error buffer (after_tool_call, capacity 10) -/

structure ErrRecord where
  time : String
  message : String
  tool : String
deriving DecidableEq, Repr

structure ErrState where
  errorCount : Nat := 0
  recentErrors : List ErrRecord := []
deriving DecidableEq, Repr

/-- `errorCount++; recentErrors.push(rec); if (recentErrors.length > 10)
recentErrors.shift();` -/
def recordError (es : ErrState) (r : ErrRecord) : ErrState :=
  let buf := es.recentErrors ++ [r]
  { errorCount := es.errorCount + 1
    recentErrors := if 10 < buf.length then buf.tail else buf }

def runRecords (es : ErrState) (recs : List ErrRecord) : ErrState :=
  recs.foldl recordError es

/-- The `after_tool_call` payload (session key passed separately). -/
structure ToolCallHookEvent where
  toolName : String := ""
  isError : Bool := false
  errorMessage : Option String := none
  toolCallId : Option String := none
  id : Option String := none
  time : String := ""
deriving DecidableEq, Repr

/-- The `after_tool_call` handler: open-or-join the trace, feed the error
buffer when `event.isError`, and emit one tool_call event carrying the real
error flag (`is_error: event.isError`,
`tool_call_id: event.toolCallId || event.id || ''`). -/
def afterToolCallEvents (sk : Option String) (ev : ToolCallHookEvent)
    (ts : TraceState) (es : ErrState) : List Ev × TraceState × ErrState :=
  let p := getOrCreateTraceId sk ts
  let es₁ :=
    if ev.isError then
      recordError es ⟨ev.time, truthyOr ev.errorMessage "Tool error", ev.toolName⟩
    else es
  ([Ev.toolCall p.1 ev.toolName (truthyOr ev.toolCallId (truthyOr ev.id "")) ev.isError],
    p.2, es₁)

/-! ## Transport and registration state machine -/

/-- A parsed response body; registration reads its `agent_id` field. -/
structure RespBody where
  agent_id : Option String := none
deriving DecidableEq, Repr

/-- What `fetch` would have done: threw, or returned a response with an
`ok` flag whose body parses to `some` value (`none` models `response.json()`
throwing on malformed JSON, which the surrounding `try` catches). -/
inductive FetchOutcome where
  | netError
  | response (ok : Bool) (body : Option RespBody)
deriving DecidableEq, Repr

/-- The three POST paths the plugin uses. -/
inductive Path where
  | register
  | events
  | config
deriving DecidableEq, Repr

/-- `sendToAgentDog`: no credential means null and no network call;
otherwise one POST whose result is the parsed body on a 2xx response with
valid JSON and null on every other outcome (non-2xx, network exception,
malformed JSON — all caught locally, nothing thrown to the caller, which
the model renders as a total function). The second component lists the
network calls performed. -/
def sendToAgentDog (apiKey : String) (o : FetchOutcome) (p : Path) :
    Option RespBody × List Path :=
  if apiKey == "" then (none, [])
  else
    match o with
    | .netError => (none, [p])
    | .response ok body => (if ok then body else none, [p])

def MAX_REGISTRATION_ATTEMPTS : Nat := 3

structure RegState where
  agentId : Option String := none
  attempts : Nat := 0
deriving DecidableEq, Repr

/-- JavaScript truthiness of `result?.agent_id`: present and non-empty. -/
def truthyAgentId (r : Option RespBody) : Option String :=
  match r with
  | some b =>
    match b.agent_id with
    | some a => if a == "" then none else some a
    | none => none
  | none => none

/-- `registerAgent`: success immediately when an identity exists; failure
with no network call once the attempt budget is spent; otherwise the
counter is incremented (before the network outcome is consulted) and one
registration POST decides the result. -/
def registerAgent (apiKey : String) (o : FetchOutcome) (s : RegState) :
    Bool × RegState × List Path :=
  if s.agentId.isSome then (true, s, [])
  else if MAX_REGISTRATION_ATTEMPTS ≤ s.attempts then (false, s, [])
  else
    let s₁ : RegState := { s with attempts := s.attempts + 1 }
    let r := sendToAgentDog apiKey o Path.register
    match truthyAgentId r.1 with
    | some aid => (true, { s₁ with agentId := some aid }, r.2)
    | none => (false, s₁, r.2)

/-- A registration attempt whose response yields no non-empty agent_id. -/
def failedReg (apiKey : String) (o : FetchOutcome) : Bool :=
  (truthyAgentId (sendToAgentDog apiKey o Path.register).1).isNone

def runRegister (apiKey : String) (outs : List FetchOutcome) (s : RegState) : RegState :=
  outs.foldl (fun st o => (registerAgent apiKey o st).2.1) s

/-- `ensureRegistered`: immediate success when an identity exists,
otherwise delegate to `registerAgent`. -/
def ensureRegistered (apiKey : String) (o : FetchOutcome) (s : RegState) :
    Bool × RegState × List Path :=
  if s.agentId.isSome then (true, s, [])
  else registerAgent apiKey o s

/-- `sendEvent`'s transport behaviour: gate on `ensureRegistered`, and only
when it succeeds POST the event (`o₁` drives a lazy registration attempt,
`o₂` the event POST itself). -/
def sendEventCalls (apiKey : String) (o₁ o₂ : FetchOutcome) (s : RegState) :
    RegState × List Path :=
  let r := ensureRegistered apiKey o₁ s
  if r.1 then (r.2.1, r.2.2 ++ (sendToAgentDog apiKey o₂ Path.events).2)
  else (r.2.1, r.2.2)

/-- `syncConfig`'s transport behaviour, same gate, config path. -/
def syncConfigCalls (apiKey : String) (o₁ o₂ : FetchOutcome) (s : RegState) :
    RegState × List Path :=
  let r := ensureRegistered apiKey o₁ s
  if r.1 then (r.2.1, r.2.2 ++ (sendToAgentDog apiKey o₂ Path.config).2)
  else (r.2.1, r.2.2)

/-- The `gateway_start` handler's state resets: the attempt counter goes
back to zero (the identity, if any, survives) and the error buffer and its
counter are cleared. -/
def gatewayStartRegState (s : RegState) : RegState :=
  { s with attempts := 0 }

def gatewayStartErrState : ErrState := {}

/-! ## One logical turn on a session key -/

/-- One step of the live tool-call sequence inside a turn. -/
def toolFoldStep (sk : Option String) (acc : List Ev × TraceState × ErrState)
    (tev : ToolCallHookEvent) : List Ev × TraceState × ErrState :=
  let r := afterToolCallEvents sk tev acc.2.1 acc.2.2
  (acc.1 ++ r.1, r.2.1, r.2.2)

/-- A full turn as the host delivers it: the user message, the live
tool-call hooks in order, then `agent_end` with the history snapshot.
Returns every event emitted for the turn and the final states. -/
def runTurn (sk : Option String) (userContent : String)
    (tools : List ToolCallHookEvent) (e : AgentEndEvent)
    (ts : TraceState) (es : ErrState) : List Ev × TraceState × ErrState :=
  let m := messageReceivedEvents sk userContent ts
  let t := tools.foldl (toolFoldStep sk) (([] : List Ev), m.2, es)
  let a := agentEndEvents sk e t.2.1
  (m.1 ++ t.1 ++ a.1, a.2, t.2.2)

/-! ## Helper lemmas -/

theorem sendToAgentDog_calls (apiKey : String) (o : FetchOutcome) (p : Path) :
    (sendToAgentDog apiKey o p).2 = if apiKey == "" then [] else [p] := by
  cases o <;> by_cases hk : apiKey = "" <;> simp [sendToAgentDog, hk]

theorem registerAgent_gate (apiKey : String) (o : FetchOutcome) (s : RegState) :
    (∀ p ∈ (registerAgent apiKey o s).2.2, p = Path.register) ∧
    ((registerAgent apiKey o s).1 = true →
      ((registerAgent apiKey o s).2.1.agentId).isSome = true) := by
  unfold registerAgent
  cases hA : s.agentId with
  | some a => simp [hA]
  | none =>
    by_cases hm : MAX_REGISTRATION_ATTEMPTS ≤ s.attempts
    · simp [hm]
    · cases ht : truthyAgentId (sendToAgentDog apiKey o Path.register).1 with
      | some aid =>
        simp only [hm, if_false, ht, Option.isSome_none, Bool.false_eq_true,
          if_neg, sendToAgentDog_calls]
        constructor
        · intro p hp
          by_cases hk : apiKey = "" <;> simp [hk] at hp <;> simp [hp]
        · intro _; rfl
      | none =>
        simp only [hm, if_false, ht, Option.isSome_none, Bool.false_eq_true,
          if_neg, sendToAgentDog_calls]
        constructor
        · intro p hp
          by_cases hk : apiKey = "" <;> simp [hk] at hp <;> simp [hp]
        · intro h; cases h

theorem ensureRegistered_gate (apiKey : String) (o : FetchOutcome) (s : RegState) :
    (∀ p ∈ (ensureRegistered apiKey o s).2.2, p = Path.register) ∧
    ((ensureRegistered apiKey o s).1 = true →
      ((ensureRegistered apiKey o s).2.1.agentId).isSome = true) := by
  unfold ensureRegistered
  cases hA : s.agentId with
  | some a => simp [hA]
  | none => simpa [hA] using registerAgent_gate apiKey o s

theorem registerAgent_failed (apiKey : String) (o : FetchOutcome) (s : RegState)
    (hA : s.agentId = none) (hm : s.attempts < MAX_REGISTRATION_ATTEMPTS)
    (hf : failedReg apiKey o = true) :
    registerAgent apiKey o s =
      (false, { agentId := none, attempts := s.attempts + 1 },
        (sendToAgentDog apiKey o Path.register).2) := by
  obtain ⟨sa, sn⟩ := s
  cases hA
  have ht : truthyAgentId (sendToAgentDog apiKey o Path.register).1 = none := by
    simpa [failedReg, Option.isNone_iff_eq_none] using hf
  simp [registerAgent, Nat.not_le.mpr hm, ht]

theorem registerAgent_success (apiKey aid : String) (s : RegState)
    (hA : s.agentId = none) (hm : s.attempts < MAX_REGISTRATION_ATTEMPTS)
    (hkey : apiKey ≠ "") (haid : aid ≠ "") :
    registerAgent apiKey (FetchOutcome.response true (some ⟨some aid⟩)) s =
      (true, { agentId := some aid, attempts := s.attempts + 1 }, [Path.register]) := by
  obtain ⟨sa, sn⟩ := s
  cases hA
  simp [registerAgent, Nat.not_le.mpr hm, sendToAgentDog, truthyAgentId, hkey, haid]

/-! ## C8: the transport primitive never throws -/

/-- C8: for every credential, outcome and path, `sendToAgentDog` is a total
function of its inputs (the embedding of "never throws past its boundary"):
a missing credential yields null with no network call; with a credential
exactly one POST is made, and its result is null on a network exception, a
non-2xx response or malformed response JSON, and the parsed body on a 2xx
response with valid JSON. -/
theorem transport_returns_null_on_failure (apiKey : String) (o : FetchOutcome) (p : Path) :
    sendToAgentDog "" o p = (none, []) ∧
    (apiKey ≠ "" → (sendToAgentDog apiKey o p).2 = [p]) ∧
    (sendToAgentDog apiKey FetchOutcome.netError p).1 = none ∧
    (∀ b, (sendToAgentDog apiKey (FetchOutcome.response false b) p).1 = none) ∧
    (sendToAgentDog apiKey (FetchOutcome.response true none) p).1 = none ∧
    (∀ b, apiKey ≠ "" →
      (sendToAgentDog apiKey (FetchOutcome.response true (some b)) p).1 = some b) := by
  refine ⟨by cases o <;> simp [sendToAgentDog], fun hk => ?_, ?_, fun b => ?_, ?_,
    fun b hk => ?_⟩
  · rw [sendToAgentDog_calls]; simp [hk]
  · by_cases hk : apiKey = "" <;> simp [sendToAgentDog, hk]
  · by_cases hk : apiKey = "" <;> simp [sendToAgentDog, hk]
  · by_cases hk : apiKey = "" <;> simp [sendToAgentDog, hk]
  · simp [sendToAgentDog, hk]

/-! ## C5: no event or config POST while unregistered -/

/-- C5: `sendEvent` and `syncConfig` both gate on `ensureRegistered`; when
the gate fails the only network traffic, if any, is the registration
attempt itself — no POST to /events or /agents/agentId/config is made —
and whenever the gate succeeds an agent identity exists. -/
theorem no_outbound_while_unregistered (apiKey : String) (o₁ o₂ : FetchOutcome)
    (s : RegState) :
    ((ensureRegistered apiKey o₁ s).1 = false →
      (∀ p ∈ (sendEventCalls apiKey o₁ o₂ s).2, p = Path.register) ∧
      (∀ p ∈ (syncConfigCalls apiKey o₁ o₂ s).2, p = Path.register)) ∧
    ((ensureRegistered apiKey o₁ s).1 = true →
      ((ensureRegistered apiKey o₁ s).2.1.agentId).isSome = true) ∧
    (Path.events ∈ (sendEventCalls apiKey o₁ o₂ s).2 →
      (ensureRegistered apiKey o₁ s).1 = true) ∧
    (Path.config ∈ (syncConfigCalls apiKey o₁ o₂ s).2 →
      (ensureRegistered apiKey o₁ s).1 = true) := by
  obtain ⟨hreg, hsome⟩ := ensureRegistered_gate apiKey o₁ s
  refine ⟨fun hfail => ?_, hsome, fun hev => ?_, fun hcf => ?_⟩
  · constructor
    · intro p hp
      simp only [sendEventCalls, hfail, Bool.false_eq_true, if_false] at hp
      exact hreg p hp
    · intro p hp
      simp only [syncConfigCalls, hfail, Bool.false_eq_true, if_false] at hp
      exact hreg p hp
  · by_cases hok : (ensureRegistered apiKey o₁ s).1 = true
    · exact hok
    · exfalso
      rw [Bool.not_eq_true] at hok
      simp only [sendEventCalls, hok, Bool.false_eq_true, if_false] at hev
      exact absurd (hreg _ hev) (by simp)
  · by_cases hok : (ensureRegistered apiKey o₁ s).1 = true
    · exact hok
    · exfalso
      rw [Bool.not_eq_true] at hok
      simp only [syncConfigCalls, hok, Bool.false_eq_true, if_false] at hcf
      exact absurd (hreg _ hcf) (by simp)

/-! ## C4: bounded registration retries, reset only on gateway_start -/

/-- C4: a registration attempt increments the counter whatever the network
outcome turns out to be (with a credential, exactly one registration POST
is made); once the counter has reached the maximum and no identity exists,
`registerAgent` returns failure with no network call and an unchanged
state; three consecutive failed attempts from a fresh state exhaust the
budget, so a fourth call performs no network I/O; the `gateway_start`
handler resets the counter to zero. -/
theorem registration_retry_budget (apiKey : String) (o o₁ o₂ o₃ : FetchOutcome)
    (s : RegState) :
    (s.agentId = none → s.attempts < MAX_REGISTRATION_ATTEMPTS →
      (registerAgent apiKey o s).2.1.attempts = s.attempts + 1 ∧
      (apiKey ≠ "" → (registerAgent apiKey o s).2.2 = [Path.register])) ∧
    (s.agentId = none → MAX_REGISTRATION_ATTEMPTS ≤ s.attempts →
      registerAgent apiKey o s = (false, s, [])) ∧
    (failedReg apiKey o₁ = true → failedReg apiKey o₂ = true →
      failedReg apiKey o₃ = true →
      runRegister apiKey [o₁, o₂, o₃] {} = { agentId := none, attempts := 3 } ∧
      registerAgent apiKey o (runRegister apiKey [o₁, o₂, o₃] {}) =
        (false, { agentId := none, attempts := 3 }, [])) ∧
    (gatewayStartRegState s).attempts = 0 := by
  refine ⟨fun hA hm => ?_, fun hA hm => ?_, fun hf₁ hf₂ hf₃ => ?_, rfl⟩
  · obtain ⟨sa, sn⟩ := s
    cases hA
    constructor
    · cases ht : truthyAgentId (sendToAgentDog apiKey o Path.register).1 <;>
        simp [registerAgent, Nat.not_le.mpr hm, ht]
    · intro hk
      cases ht : truthyAgentId (sendToAgentDog apiKey o Path.register).1 <;>
        simp [registerAgent, Nat.not_le.mpr hm, ht, sendToAgentDog_calls, hk]
  · obtain ⟨sa, sn⟩ := s
    cases hA
    simp [registerAgent, hm]
  · have h₁ := registerAgent_failed apiKey o₁ { agentId := none, attempts := 0 } rfl
      (by decide) hf₁
    have h₂ := registerAgent_failed apiKey o₂ { agentId := none, attempts := 1 } rfl
      (by decide) hf₂
    have h₃ := registerAgent_failed apiKey o₃ { agentId := none, attempts := 2 } rfl
      (by decide) hf₃
    have hrun : runRegister apiKey [o₁, o₂, o₃] {} = { agentId := none, attempts := 3 } := by
      simp only [runRegister, List.foldl_cons, List.foldl_nil]
      rw [show ({} : RegState) = { agentId := none, attempts := 0 } from rfl,
        h₁, h₂, h₃]
    refine ⟨hrun, ?_⟩
    rw [hrun]
    simp [registerAgent, MAX_REGISTRATION_ATTEMPTS]

/-! ## C9: idempotence of ensureRegistered -/

/-- C9 counterexample to the claim as stated: when the state is already
registered before the first call, two consecutive `ensureRegistered` calls
perform zero network calls in total, not exactly one. -/
theorem ensure_registered_idempotence_counterexample :
    (ensureRegistered "ad_k" FetchOutcome.netError
      { agentId := some "a1", attempts := 0 }).2.2 = [] ∧
    (ensureRegistered "ad_k" FetchOutcome.netError
      (ensureRegistered "ad_k" FetchOutcome.netError
        { agentId := some "a1", attempts := 0 }).2.1).2.2 = [] ∧
    ((ensureRegistered "ad_k" FetchOutcome.netError
        { agentId := some "a1", attempts := 0 }).2.2 ++
      (ensureRegistered "ad_k" FetchOutcome.netError
        (ensureRegistered "ad_k" FetchOutcome.netError
          { agentId := some "a1", attempts := 0 }).2.1).2.2).length ≠ 1 := by
  refine ⟨rfl, rfl, by decide⟩

/-- C9 amended: starting unregistered with retry budget left, when the
first `ensureRegistered` call's registration POST succeeds, the first call
performs exactly one network call, registers, and the second call performs
zero — one call in total; and when an identity already exists before the
first call, any `ensureRegistered` call performs zero network calls. -/
theorem ensure_registered_idempotence (apiKey aid : String) (o₂ : FetchOutcome)
    (s : RegState) (hkey : apiKey ≠ "") (haid : aid ≠ "")
    (hA : s.agentId = none) (hm : s.attempts < MAX_REGISTRATION_ATTEMPTS) :
    (ensureRegistered apiKey (FetchOutcome.response true (some ⟨some aid⟩)) s).2.2 =
      [Path.register] ∧
    (ensureRegistered apiKey (FetchOutcome.response true (some ⟨some aid⟩)) s).1 = true ∧
    (ensureRegistered apiKey o₂
      (ensureRegistered apiKey (FetchOutcome.response true (some ⟨some aid⟩)) s).2.1).2.2 =
      [] ∧
    ((ensureRegistered apiKey (FetchOutcome.response true (some ⟨some aid⟩)) s).2.2 ++
      (ensureRegistered apiKey o₂
        (ensureRegistered apiKey
          (FetchOutcome.response true (some ⟨some aid⟩)) s).2.1).2.2).length = 1 ∧
    (∀ s₁ : RegState, s₁.agentId.isSome = true →
      ensureRegistered apiKey o₂ s₁ = (true, s₁, [])) := by
  have h₁ : ensureRegistered apiKey (FetchOutcome.response true (some ⟨some aid⟩)) s =
      (true, { agentId := some aid, attempts := s.attempts + 1 }, [Path.register]) := by
    unfold ensureRegistered
    rw [hA]
    simpa using registerAgent_success apiKey aid s hA hm hkey haid
  have hreg : ∀ s₁ : RegState, s₁.agentId.isSome = true →
      ensureRegistered apiKey o₂ s₁ = (true, s₁, []) := by
    intro s₁ h
    unfold ensureRegistered
    rw [h]
    simp
  refine ⟨by rw [h₁], by rw [h₁], ?_, ?_, hreg⟩
  · rw [h₁, hreg { agentId := some aid, attempts := s.attempts + 1 } rfl]
  · rw [h₁, hreg { agentId := some aid, attempts := s.attempts + 1 } rfl]
    rfl

/-- Closed instance of the idempotence theorem at concrete inputs. -/
theorem ensure_registered_idempotence_witness :
    (ensureRegistered "ad_k" (FetchOutcome.response true (some ⟨some "a1"⟩))
      { agentId := none, attempts := 0 }).2.2 = [Path.register] ∧
    (ensureRegistered "ad_k" (FetchOutcome.response true (some ⟨some "a1"⟩))
      { agentId := none, attempts := 0 }).1 = true ∧
    (ensureRegistered "ad_k" FetchOutcome.netError
      (ensureRegistered "ad_k" (FetchOutcome.response true (some ⟨some "a1"⟩))
        { agentId := none, attempts := 0 }).2.1).2.2 = [] ∧
    ((ensureRegistered "ad_k" (FetchOutcome.response true (some ⟨some "a1"⟩))
        { agentId := none, attempts := 0 }).2.2 ++
      (ensureRegistered "ad_k" FetchOutcome.netError
        (ensureRegistered "ad_k" (FetchOutcome.response true (some ⟨some "a1"⟩))
          { agentId := none, attempts := 0 }).2.1).2.2).length = 1 ∧
    (∀ s₁ : RegState, s₁.agentId.isSome = true →
      ensureRegistered "ad_k" FetchOutcome.netError s₁ = (true, s₁, [])) :=
  ensure_registered_idempotence "ad_k" "a1" FetchOutcome.netError
    { agentId := none, attempts := 0 } (by decide) (by decide) rfl (by decide)

/-! ## C7: error buffer capacity and cumulative counter -/

theorem recordError_buf (es : ErrState) (r : ErrRecord)
    (h : es.recentErrors.length ≤ 10) :
    (recordError es r).recentErrors =
      (es.recentErrors ++ [r]).drop (es.recentErrors.length + 1 - 10) := by
  show (if 10 < (es.recentErrors ++ [r]).length then (es.recentErrors ++ [r]).tail
      else es.recentErrors ++ [r]) =
    (es.recentErrors ++ [r]).drop (es.recentErrors.length + 1 - 10)
  rcases Nat.lt_or_ge es.recentErrors.length 10 with hlt | hge
  · have hnot : ¬ 10 < (es.recentErrors ++ [r]).length := by
      simp only [List.length_append, List.length_cons, List.length_nil]
      omega
    have hz : es.recentErrors.length + 1 - 10 = 0 := by omega
    rw [if_neg hnot, hz, List.drop_zero]
  · have h10 : es.recentErrors.length = 10 := Nat.le_antisymm h hge
    have hgt : 10 < (es.recentErrors ++ [r]).length := by
      simp only [List.length_append, List.length_cons, List.length_nil]
      omega
    have ho : es.recentErrors.length + 1 - 10 = 1 := by omega
    rw [if_pos hgt, ho, List.drop_one]

theorem runRecords_spec (recs : List ErrRecord) :
    ∀ es : ErrState, es.recentErrors.length ≤ 10 →
      (runRecords es recs).errorCount = es.errorCount + recs.length ∧
      (runRecords es recs).recentErrors =
        (es.recentErrors ++ recs).drop (es.recentErrors.length + recs.length - 10) := by
  induction recs with
  | nil =>
    intro es h
    have hz : es.recentErrors.length - 10 = 0 := by omega
    simp [runRecords, hz]
  | cons r rest ih =>
    intro es h
    have hbuf := recordError_buf es r h
    have hlen : (recordError es r).recentErrors.length ≤ 10 := by
      rw [hbuf]
      simp only [List.length_drop, List.length_append, List.length_cons,
        List.length_nil]
      omega
    have hstep : runRecords es (r :: rest) = runRecords (recordError es r) rest := by
      simp [runRecords]
    obtain ⟨ihc, ihb⟩ := ih (recordError es r) hlen
    constructor
    · rw [hstep, ihc]
      simp only [recordError, List.length_cons]
      omega
    · have happ : ((es.recentErrors ++ [r]) ++ rest).drop (es.recentErrors.length + 1 - 10) =
          (es.recentErrors ++ [r]).drop (es.recentErrors.length + 1 - 10) ++ rest := by
        rw [List.drop_append_eq_append_drop]
        have hz : es.recentErrors.length + 1 - 10 - (es.recentErrors ++ [r]).length = 0 := by
          simp only [List.length_append, List.length_cons, List.length_nil]
          omega
        rw [hz, List.drop_zero]
      rw [hstep, ihb, hbuf, ← happ, List.drop_drop]
      rw [show (es.recentErrors ++ [r]) ++ rest = es.recentErrors ++ (r :: rest) by simp]
      congr 1
      simp only [List.length_drop, List.length_append, List.length_cons, List.length_nil]
      omega

/-- C7: recording a failure appends the record and increments the
cumulative counter; from the reset state the buffer after any sequence of
failures is exactly the most recent ten records in chronological order
(`recs.drop (recs.length - 10)`), so fifteen failures leave the last ten
with the counter at fifteen; the `gateway_start` handler is what resets
both to empty/zero. -/
theorem error_buffer_capacity (recs : List ErrRecord) :
    (recs.length = 15 →
      runRecords gatewayStartErrState recs =
        { errorCount := 15, recentErrors := recs.drop 5 }) ∧
    (runRecords gatewayStartErrState recs).errorCount = recs.length ∧
    (runRecords gatewayStartErrState recs).recentErrors =
      recs.drop (recs.length - 10) ∧
    (∀ es r, (recordError es r).errorCount = es.errorCount + 1) ∧
    gatewayStartErrState = { errorCount := 0, recentErrors := [] } := by
  obtain ⟨hc, hb⟩ := runRecords_spec recs gatewayStartErrState (by simp [gatewayStartErrState])
  have hc0 : (runRecords gatewayStartErrState recs).errorCount = recs.length := by
    simpa [gatewayStartErrState] using hc
  have hb0 : (runRecords gatewayStartErrState recs).recentErrors =
      recs.drop (recs.length - 10) := by
    simpa [gatewayStartErrState] using hb
  refine ⟨fun h15 => ?_, hc0, hb0, fun es r => rfl, rfl⟩
  have : (runRecords gatewayStartErrState recs).errorCount = 15 := by rw [hc0, h15]
  have hb15 : (runRecords gatewayStartErrState recs).recentErrors = recs.drop 5 := by
    rw [hb0, h15]
  cases hr : runRecords gatewayStartErrState recs
  simp_all

/-! ## C10: reconstructed tool_call events always carry is_error = false -/

/-- C10: every tool_call event the turn reconstructor emits during
`agent_end` has `is_error: false` whatever the history contained, while the
live `after_tool_call` handler emits the event's real error flag and bumps
the error counter exactly when the invocation failed. -/
theorem reconstructed_tool_calls_error_flag (sk : Option String) (e : AgentEndEvent)
    (ts : TraceState) (ev : ToolCallHookEvent) (es : ErrState) :
    (∀ t n i b, Ev.toolCall t n i b ∈ (agentEndEvents sk e ts).1 → b = false) ∧
    (afterToolCallEvents sk ev ts es).1 =
      [Ev.toolCall (getOrCreateTraceId sk ts).1 ev.toolName
        (truthyOr ev.toolCallId (truthyOr ev.id "")) ev.isError] ∧
    (afterToolCallEvents sk ev ts es).2.2.errorCount =
      es.errorCount + (if ev.isError then 1 else 0) := by
  refine ⟨fun t n i b hb => ?_, rfl, ?_⟩
  · obtain ⟨ms, us, mo, pr, sr⟩ := e
    unfold agentEndEvents at hb
    rcases ms with _ | msgs <;> rcases us with _ | u <;>
      simp only [List.mem_append, List.mem_map, List.mem_singleton,
        List.not_mem_nil, false_or, or_false, List.mem_cons] at hb
    · cases hb
    · rcases hb with ⟨q, _, hq⟩ | hb
      · cases hq; rfl
      · by_cases hfc : trimStr (scanTurn msgs).finalContent == "" <;>
          simp [hfc] at hb
    · rcases hb with (⟨q, _, hq⟩ | hb) | hb
      · cases hq; rfl
      · by_cases hfc : trimStr (scanTurn msgs).finalContent == "" <;>
          simp [hfc] at hb
      · cases hb
  · cases hE : ev.isError <;> simp [afterToolCallEvents, hE, recordError]

/-! ## C6: emission counts at turn completion, trace always closed -/

theorem filter_message_toolmap (t : Nat) (l : List (String × String)) :
    (l.map fun q => Ev.toolCall t q.1 q.2 false).filter isMessageEv = [] := by
  induction l with
  | nil => rfl
  | cons q l ih => simp [isMessageEv, ih]

theorem filter_usage_toolmap (t : Nat) (l : List (String × String)) :
    (l.map fun q => Ev.toolCall t q.1 q.2 false).filter isUsageEv = [] := by
  induction l with
  | nil => rfl
  | cons q l ih => simp [isUsageEv, ih]

theorem lookupTrace_filter_self (k : String) (l : List (String × Nat)) :
    lookupTrace k (l.filter fun p => !(p.1 == k)) = none := by
  induction l with
  | nil => rfl
  | cons p rest ih =>
    by_cases h : p.1 == k
    · simpa [List.filter, h] using ih
    · simpa [List.filter, h, lookupTrace] using ih

/-- C6: at turn completion exactly one assistant message event is emitted
iff the accumulated final text is non-empty after trimming (a thinking-only
turn emits none), exactly one usage event is emitted iff usage data is
present — independently of the text — and in every case the session's open
trace is closed (a lookup of the normalized key in the resulting trace map
finds nothing). -/
theorem agent_end_emission_counts (sk : Option String) (e : AgentEndEvent)
    (ts : TraceState) :
    ((agentEndEvents sk e ts).1.filter isMessageEv).length =
      (if accFinalText e == "" then 0 else 1) ∧
    ((agentEndEvents sk e ts).1.filter isUsageEv).length =
      (if e.usage.isSome then 1 else 0) ∧
    lookupTrace (normKey sk) (agentEndEvents sk e ts).2.traces = none := by
  obtain ⟨ms, us, mo, pr, sr⟩ := e
  refine ⟨?_, ?_, ?_⟩
  · unfold agentEndEvents accFinalText
    rcases ms with _ | msgs <;> rcases us with _ | u <;>
      simp only [List.filter_append, filter_message_toolmap, List.nil_append,
        List.append_nil]
    · rfl
    · simp [isUsageEv, isMessageEv]
    · by_cases hfc : trimStr (scanTurn msgs).finalContent == "" <;>
        simp [hfc, isMessageEv]
    · by_cases hfc : trimStr (scanTurn msgs).finalContent == "" <;>
        simp [hfc, isMessageEv, isUsageEv]
  · unfold agentEndEvents
    rcases ms with _ | msgs <;> rcases us with _ | u <;>
      simp only [List.filter_append, filter_usage_toolmap, List.nil_append,
        List.append_nil]
    · rfl
    · simp [isUsageEv]
    · by_cases hfc : trimStr (scanTurn msgs).finalContent == "" <;>
        simp [hfc, isUsageEv]
    · by_cases hfc : trimStr (scanTurn msgs).finalContent == "" <;>
        simp [hfc, isUsageEv]
  · unfold agentEndEvents clearTraceId
    rcases hl : lookupTrace (normKey sk) ts.traces with _ | t <;>
      simp only [getOrCreateTraceId, hl] <;>
      exact lookupTrace_filter_self (normKey sk) _

/-! ## C2: turn-start selection -/

theorem lastRealUserIdx?_none (msgs : List Message) :
    lastRealUserIdx? msgs = none ↔ ∀ m ∈ msgs, isRealUser m = false := by
  induction msgs with
  | nil => simp [lastRealUserIdx?]
  | cons m rest ih =>
    cases h : lastRealUserIdx? rest with
    | some r =>
      simp only [lastRealUserIdx?, h]
      constructor
      · intro hc; cases hc
      · intro hall
        have h₁ : lastRealUserIdx? rest = none :=
          ih.mpr fun x hx => hall x (List.mem_cons_of_mem m hx)
        rw [h] at h₁
        cases h₁
    | none =>
      by_cases hm : isRealUser m
      · simp only [lastRealUserIdx?, h, hm, if_true]
        constructor
        · intro hc; cases hc
        · intro hall
          have := hall m (List.mem_cons_self m rest)
          rw [hm] at this
          cases this
      · simp only [lastRealUserIdx?, h, if_neg hm, true_iff]
        intro x hx
        rcases List.mem_cons.mp hx with hx | hx
        · subst hx
          cases hb : isRealUser x
          · rfl
          · exact absurd hb hm
        · exact (ih.mp h) x hx

theorem lastRealUserIdx?_some (msgs : List Message) (n : Nat)
    (h : lastRealUserIdx? msgs = some n) :
    (∃ m, msgs[n]? = some m ∧ isRealUser m = true) ∧
    (∀ j, n < j → ∀ m₁, msgs[j]? = some m₁ → isRealUser m₁ = false) := by
  induction msgs generalizing n with
  | nil => cases h
  | cons m rest ih =>
    rw [lastRealUserIdx?] at h
    cases hr : lastRealUserIdx? rest with
    | some r =>
      rw [hr] at h
      injection h with h
      subst h
      obtain ⟨⟨m₁, hget, hreal⟩, hlater⟩ := ih r hr
      constructor
      · exact ⟨m₁, by simpa using hget, hreal⟩
      · intro j hj m₂ hm₂
        cases j with
        | zero => omega
        | succ j₁ =>
          have hm₂ : rest[j₁]? = some m₂ := by simpa using hm₂
          exact hlater j₁ (by omega) m₂ hm₂
    | none =>
      rw [hr] at h
      by_cases hm : isRealUser m
      · rw [if_pos hm] at h
        injection h with h
        subst h
        refine ⟨⟨m, by simp, hm⟩, ?_⟩
        intro j hj m₂ hm₂
        cases j with
        | zero => omega
        | succ j₁ =>
          have hm₂ : rest[j₁]? = some m₂ := by simpa using hm₂
          have hmem : m₂ ∈ rest := List.mem_iff_getElem?.mpr ⟨j₁, hm₂⟩
          exact (lastRealUserIdx?_none rest).mp hr m₂ hmem
      · rw [if_neg hm] at h
        cases h

/-- C2: the turn start selected for the `agent_end` scan is the most
recent (largest-index) message with role user whose content is a plain
string or an array containing a text block; any later user message (e.g. a
tool-result-only one) does not qualify; with no qualifying message the
index is -1 and the scan covers the whole history from the beginning. -/
theorem turn_start_selection (msgs : List Message) :
    (turnStartIdx msgs = -1 →
      (∀ m ∈ msgs, isRealUser m = false) ∧ scannedTurn msgs = msgs) ∧
    (∀ n : Nat, turnStartIdx msgs = (n : Int) →
      (∃ m, msgs[n]? = some m ∧ m.role = "user" ∧ hasRealContent m.content = true) ∧
      (∀ j, n < j → ∀ m₁, msgs[j]? = some m₁ → isRealUser m₁ = false) ∧
      scannedTurn msgs = msgs.drop (n + 1)) ∧
    (∀ m : Message, isRealUser m = true ↔
      (m.role = "user" ∧ ((∃ s, m.content = Content.str s) ∨
        (∃ bs, m.content = Content.blocks bs ∧ ∃ s, Block.text s ∈ bs)))) := by
  refine ⟨fun hneg => ?_, fun n hn => ?_, fun m => ?_⟩
  · cases h : lastRealUserIdx? msgs with
    | some k =>
      have hneg₁ : (k : Int) = -1 := by rw [turnStartIdx, h] at hneg; exact hneg
      have hk0 : (0 : Int) ≤ (k : Int) := Int.natCast_nonneg k
      rw [hneg₁] at hk0
      norm_num at hk0
    | none =>
      refine ⟨(lastRealUserIdx?_none msgs).mp h, ?_⟩
      unfold scannedTurn
      rw [turnStartIdx, h]
      rfl
  · cases h : lastRealUserIdx? msgs with
    | none =>
      have hn₁ : (-1 : Int) = (n : Int) := by rw [turnStartIdx, h] at hn; exact hn
      have hk0 : (0 : Int) ≤ (n : Int) := Int.natCast_nonneg n
      rw [← hn₁] at hk0
      norm_num at hk0
    | some k =>
      have hn₁ : (k : Int) = (n : Int) := by rw [turnStartIdx, h] at hn; exact hn
      have hk : k = n := by exact_mod_cast hn₁
      subst hk
      obtain ⟨⟨m, hget, hreal⟩, hlater⟩ := lastRealUserIdx?_some msgs k h
      have hrole : m.role = "user" ∧ hasRealContent m.content = true := by
        have := hreal
        unfold isRealUser at this
        rcases Bool.and_eq_true_iff.mp this with ⟨h₁, h₂⟩
        exact ⟨by simpa using h₁, h₂⟩
      refine ⟨⟨m, hget, hrole.1, hrole.2⟩, hlater, ?_⟩
      unfold scannedTurn turnStartIdx
      rw [h]
      exact rfl
  · unfold isRealUser
    cases hc : m.content with
    | str s =>
      simp only [hasRealContent, Bool.and_true]
      constructor
      · intro h; exact ⟨by simpa using h, Or.inl ⟨s, rfl⟩⟩
      · intro ⟨h, _⟩; simpa using h
    | blocks bs =>
      simp only [hasRealContent]
      constructor
      · intro h
        rcases Bool.and_eq_true_iff.mp h with ⟨h₁, h₂⟩
        rcases List.any_eq_true.mp h₂ with ⟨b, hb, htb⟩
        cases b with
        | text s => exact ⟨by simpa using h₁, Or.inr ⟨bs, rfl, s, hb⟩⟩
        | thinking s => cases htb
        | toolCall d => cases htb
        | other => cases htb
      · rintro ⟨h₁, h₂⟩
        rcases h₂ with ⟨s, hs⟩ | ⟨bs₁, hbs, s, hsb⟩
        · cases hs
        · injection hbs with hbs
          subst hbs
          refine Bool.and_eq_true_iff.mpr ⟨by simpa using h₁, ?_⟩
          exact List.any_eq_true.mpr ⟨Block.text s, hsb, rfl⟩
    | null =>
      simp only [hasRealContent, Bool.and_false]
      constructor
      · intro h; cases h
      · rintro ⟨h₁, h₂⟩
        rcases h₂ with ⟨s, hs⟩ | ⟨bs₁, hbs, _⟩
        · cases hs
        · cases hbs

/-! ## C3: the last text block wins -/

def textOf : Block → Option String
  | .text s => some s
  | _ => none

/-- Specification-side reading: the text-block values of assistant
array-content messages in the scanned range, in scan order; the spec's
"final text block" is this list's last element. -/
def msgTextBlocks (m : Message) : List String :=
  if m.role == "assistant" then
    match m.content with
    | .blocks bs => bs.filterMap textOf
    | _ => []
  else []

def turnTextBlocks (msgs : List Message) : List String :=
  ((scannedTurn msgs).map msgTextBlocks).flatten

theorem getLastD_cons₁ (a : String) (l : List String) (d : String) :
    (a :: l).getLastD d = l.getLastD a := by
  cases l <;> simp [List.getLastD]

theorem getLastD_append (l₁ l₂ : List String) (d : String) :
    (l₁ ++ l₂).getLastD d = l₂.getLastD (l₁.getLastD d) := by
  induction l₁ generalizing d with
  | nil => rfl
  | cons a l ih => rw [List.cons_append, getLastD_cons₁, ih, getLastD_cons₁]

theorem foldl_accumulateBlock_content (bs : List Block) (acc : ScanAcc) :
    (bs.foldl accumulateBlock acc).finalContent =
      (bs.filterMap textOf).getLastD acc.finalContent := by
  induction bs generalizing acc with
  | nil => rfl
  | cons b rest ih =>
    cases b with
    | text s =>
      rw [List.foldl_cons, ih]
      rw [show (Block.text s :: rest).filterMap textOf = s :: rest.filterMap textOf
        from rfl]
      rw [getLastD_cons₁]
      rfl
    | thinking s => rw [List.foldl_cons, ih]; rfl
    | toolCall d => rw [List.foldl_cons, ih]; rfl
    | other => rw [List.foldl_cons, ih]; rfl

theorem processMessage_content (acc : ScanAcc) (m : Message) :
    (processMessage acc m).finalContent = (msgTextBlocks m).getLastD acc.finalContent := by
  unfold processMessage msgTextBlocks
  by_cases hr : m.role == "assistant"
  · rw [if_pos hr, if_pos hr]
    cases m.content with
    | str s => rfl
    | blocks bs => exact foldl_accumulateBlock_content bs _
    | null => rfl
  · rw [if_neg hr, if_neg hr]
    rfl

theorem foldl_processMessage_content (l : List Message) (acc : ScanAcc) :
    (l.foldl processMessage acc).finalContent =
      ((l.map msgTextBlocks).flatten).getLastD acc.finalContent := by
  induction l generalizing acc with
  | nil => rfl
  | cons m rest ih =>
    rw [List.foldl_cons, List.map_cons, List.flatten_cons, ih, getLastD_append,
      processMessage_content]

theorem scanTurn_content (msgs : List Message) :
    (scanTurn msgs).finalContent = (turnTextBlocks msgs).getLastD "" := by
  unfold scanTurn turnTextBlocks
  exact foldl_processMessage_content _ _

/-- C3 counterexample to the claim as stated: with a final text block whose
text is "final " (trailing blank), the emitted assistant message event's
content is the trimmed "final", which differs from the text of the final
text block. -/
theorem emitted_text_trim_counterexample :
    (turnTextBlocks [⟨"user", Content.str "hi"⟩,
        ⟨"assistant", Content.blocks [Block.text "final "]⟩]).getLastD "" = "final " ∧
    (agentEndEvents (some "s")
        { messages := some [⟨"user", Content.str "hi"⟩,
            ⟨"assistant", Content.blocks [Block.text "final "]⟩] }
        { traces := [], nextId := 0 }).1 =
      [Ev.message 0 "assistant" "final" ""] ∧
    ("final" : String) ≠ "final " := by
  refine ⟨by decide, by decide, by decide⟩

/-- C3 amended: during the forward scan every text block overwrites the
final-content accumulator, so the accumulator ends as the value of the
final text block of the scanned range; the emitted assistant message
event's content is that value after trimming (and no message event is
emitted when it trims to empty). In particular blocks "draft" then "final"
emit content "final". -/
theorem last_text_block_wins (sk : Option String) (e : AgentEndEvent)
    (ts : TraceState) (msgs : List Message) :
    (scanTurn msgs).finalContent = (turnTextBlocks msgs).getLastD "" ∧
    (e.messages = some msgs →
      (agentEndEvents sk e ts).1.filter isMessageEv =
        (if trimStr ((turnTextBlocks msgs).getLastD "") == "" then []
         else [Ev.message (getOrCreateTraceId sk ts).1 "assistant"
            (trimStr ((turnTextBlocks msgs).getLastD ""))
            (trimStr (scanTurn msgs).finalThinking)])) := by
  constructor
  · exact scanTurn_content msgs
  · intro hm
    obtain ⟨ms, us, mo, pr, sr⟩ := e
    simp only at hm
    subst hm
    unfold agentEndEvents
    rw [← scanTurn_content]
    rcases us with _ | u <;>
      simp only [List.filter_append, filter_message_toolmap, List.nil_append,
        List.append_nil] <;>
      by_cases hfc : trimStr (scanTurn msgs).finalContent == "" <;>
      simp [hfc, isMessageEv]

/-! ## C1: one trace id per turn, a fresh id for the next turn -/

theorem getOrCreate_found (sk : Option String) (s : TraceState) (t : Nat)
    (h : lookupTrace (normKey sk) s.traces = some t) :
    getOrCreateTraceId sk s = (t, s) := by
  simp only [getOrCreateTraceId, h]

theorem getOrCreate_lookup (sk : Option String) (s : TraceState) :
    lookupTrace (normKey sk) (getOrCreateTraceId sk s).2.traces =
      some (getOrCreateTraceId sk s).1 := by
  cases h : lookupTrace (normKey sk) s.traces with
  | some t => simp [getOrCreateTraceId, h]
  | none => simp [getOrCreateTraceId, h, lookupTrace]

theorem lookupTrace_lt (k : String) (l : List (String × Nat)) (n t : Nat)
    (hall : l.all (fun p => p.2 < n) = true) (h : lookupTrace k l = some t) :
    t < n := by
  induction l with
  | nil => cases h
  | cons p rest ih =>
    rw [List.all_cons, Bool.and_eq_true_iff] at hall
    rw [lookupTrace] at h
    by_cases hp : p.1 == k
    · rw [if_pos hp] at h
      injection h with h
      subst h
      exact of_decide_eq_true hall.1
    · rw [if_neg hp] at h
      exact ih hall.2 h

theorem getOrCreate_wf (sk : Option String) (s : TraceState) (h : TraceWF s = true) :
    TraceWF (getOrCreateTraceId sk s).2 = true ∧
    (getOrCreateTraceId sk s).1 < (getOrCreateTraceId sk s).2.nextId ∧
    s.nextId ≤ (getOrCreateTraceId sk s).2.nextId := by
  cases hl : lookupTrace (normKey sk) s.traces with
  | some t =>
    simp only [getOrCreateTraceId, hl]
    exact ⟨h, lookupTrace_lt (normKey sk) s.traces s.nextId t h hl, Nat.le_refl _⟩
  | none =>
    simp only [getOrCreateTraceId, hl]
    refine ⟨?_, Nat.lt_succ_self _, Nat.le_succ _⟩
    unfold TraceWF at h ⊢
    simp only [List.all_cons, Bool.and_eq_true_iff]
    constructor
    · simp
    · rw [List.all_eq_true] at h ⊢
      intro p hp
      have := of_decide_eq_true (h p hp)
      exact decide_eq_true (by omega)

theorem clearTraceId_wf (sk : Option String) (s : TraceState) (h : TraceWF s = true) :
    TraceWF (clearTraceId sk s) = true ∧ (clearTraceId sk s).nextId = s.nextId ∧
    lookupTrace (normKey sk) (clearTraceId sk s).traces = none := by
  refine ⟨?_, rfl, lookupTrace_filter_self _ _⟩
  unfold TraceWF at h ⊢
  rw [List.all_eq_true] at h ⊢
  intro p hp
  exact h p (List.mem_of_mem_filter hp)

theorem afterToolCall_found (sk : Option String) (ev : ToolCallHookEvent)
    (ts : TraceState) (es : ErrState) (t : Nat)
    (h : lookupTrace (normKey sk) ts.traces = some t) :
    (afterToolCallEvents sk ev ts es).2.1 = ts ∧
    ∀ e₁ ∈ (afterToolCallEvents sk ev ts es).1, e₁.trace = t := by
  unfold afterToolCallEvents
  rw [getOrCreate_found sk ts t h]
  exact ⟨rfl, by intro e₁ he₁; simp at he₁; subst he₁; rfl⟩

theorem toolFold_found (sk : Option String) (t : Nat) (tools : List ToolCallHookEvent) :
    ∀ acc : List Ev × TraceState × ErrState,
      lookupTrace (normKey sk) acc.2.1.traces = some t →
      (tools.foldl (toolFoldStep sk) acc).2.1 = acc.2.1 ∧
      ∀ e₁ ∈ (tools.foldl (toolFoldStep sk) acc).1, e₁ ∈ acc.1 ∨ e₁.trace = t := by
  induction tools with
  | nil => exact fun acc h => ⟨rfl, fun e₁ he₁ => Or.inl he₁⟩
  | cons tev rest ih =>
    intro acc h
    obtain ⟨hstate, hevs⟩ := afterToolCall_found sk tev acc.2.1 acc.2.2 t h
    have hstep₁ : (toolFoldStep sk acc tev).2.1 = acc.2.1 := hstate
    obtain ⟨ih₁, ih₂⟩ := ih (toolFoldStep sk acc tev) (by rw [hstep₁]; exact h)
    rw [List.foldl_cons]
    refine ⟨by rw [ih₁, hstep₁], fun e₁ he₁ => ?_⟩
    rcases ih₂ e₁ he₁ with hmem | htr
    · unfold toolFoldStep at hmem
      rcases List.mem_append.mp hmem with hl | hr
      · exact Or.inl hl
      · exact Or.inr (hevs e₁ hr)
    · exact Or.inr htr

theorem agentEnd_trace (sk : Option String) (e : AgentEndEvent) (ts : TraceState) :
    (∀ e₁ ∈ (agentEndEvents sk e ts).1, e₁.trace = (getOrCreateTraceId sk ts).1) ∧
    (agentEndEvents sk e ts).2 = clearTraceId sk (getOrCreateTraceId sk ts).2 := by
  refine ⟨?_, rfl⟩
  intro e₁ he₁
  obtain ⟨ms, us, mo, pr, sr⟩ := e
  unfold agentEndEvents at he₁
  rcases ms with _ | msgs
  · rcases us with _ | u
    · simp at he₁
    · simp only [List.nil_append, List.mem_singleton] at he₁
      subst he₁; rfl
  · rcases us with _ | u
    · simp only [List.append_nil, List.mem_append, List.mem_map] at he₁
      rcases he₁ with ⟨q, _, hq⟩ | he₁
      · subst hq; rfl
      · by_cases hfc : trimStr (scanTurn msgs).finalContent == ""
        · simp [hfc] at he₁
        · simp only [hfc, Bool.false_eq_true, if_false, List.mem_singleton] at he₁
          subst he₁; rfl
    · simp only [List.mem_append, List.mem_map, List.mem_singleton] at he₁
      rcases he₁ with (⟨q, _, hq⟩ | he₁) | he₁
      · subst hq; rfl
      · by_cases hfc : trimStr (scanTurn msgs).finalContent == ""
        · simp [hfc] at he₁
        · simp only [hfc, Bool.false_eq_true, if_false, List.mem_singleton] at he₁
          subst he₁; rfl
      · subst he₁; rfl

theorem runTurn_trace (sk : Option String) (uc : String)
    (tools : List ToolCallHookEvent) (e : AgentEndEvent) (ts : TraceState)
    (es : ErrState) :
    (∀ e₁ ∈ (runTurn sk uc tools e ts es).1, e₁.trace = (getOrCreateTraceId sk ts).1) ∧
    (runTurn sk uc tools e ts es).2.1 = clearTraceId sk (getOrCreateTraceId sk ts).2 := by
  have hp := getOrCreate_lookup sk ts
  obtain ⟨hfs, hfe⟩ := toolFold_found sk (getOrCreateTraceId sk ts).1 tools
    (([] : List Ev), (getOrCreateTraceId sk ts).2, es) hp
  have hg : getOrCreateTraceId sk
      (tools.foldl (toolFoldStep sk)
        (([] : List Ev), (getOrCreateTraceId sk ts).2, es)).2.1 =
      ((getOrCreateTraceId sk ts).1, (getOrCreateTraceId sk ts).2) := by
    rw [hfs]
    exact getOrCreate_found sk _ _ hp
  obtain ⟨hae, has⟩ := agentEnd_trace sk e
    (tools.foldl (toolFoldStep sk) (([] : List Ev), (getOrCreateTraceId sk ts).2, es)).2.1
  constructor
  · intro e₁ he₁
    have he₂ : e₁ ∈ [Ev.message (getOrCreateTraceId sk ts).1 "user" uc ""] ++
        (tools.foldl (toolFoldStep sk)
          (([] : List Ev), (getOrCreateTraceId sk ts).2, es)).1 ++
        (agentEndEvents sk e (tools.foldl (toolFoldStep sk)
          (([] : List Ev), (getOrCreateTraceId sk ts).2, es)).2.1).1 := he₁
    rcases List.mem_append.mp he₂ with h₁₂ | h₃
    · rcases List.mem_append.mp h₁₂ with h₁ | h₂
      · rw [List.mem_singleton] at h₁
        subst h₁
        rfl
      · rcases hfe e₁ h₂ with hnil | htr
        · cases hnil
        · exact htr
    · rw [hae e₁ h₃, hg]
  · show (agentEndEvents sk e (tools.foldl (toolFoldStep sk)
      (([] : List Ev), (getOrCreateTraceId sk ts).2, es)).2.1).2 = _
    rw [has, hg]

/-- C1: every event of one logical turn on a session key (user message,
tool calls, and everything the completion handler emits) carries one
identical trace id, the events of the very next turn on the same key carry
a different id, and an absent or empty session key is normalized to the
sentinel "default" before lookup so keyless events correlate into the same
trace. -/
theorem trace_id_stable_within_turn_fresh_across (sk : Option String)
    (uc₁ uc₂ : String) (tools₁ tools₂ : List ToolCallHookEvent)
    (e₁ e₂ : AgentEndEvent) (ts : TraceState) (es₁ es₂ : ErrState)
    (hwf : TraceWF ts = true) :
    ∃ t₁ t₂ : Nat,
      (∀ ev ∈ (runTurn sk uc₁ tools₁ e₁ ts es₁).1, ev.trace = t₁) ∧
      (∀ ev ∈ (runTurn sk uc₂ tools₂ e₂ (runTurn sk uc₁ tools₁ e₁ ts es₁).2.1 es₂).1,
        ev.trace = t₂) ∧
      t₁ ≠ t₂ ∧
      getOrCreateTraceId none ts = getOrCreateTraceId (some "default") ts ∧
      getOrCreateTraceId (some "") ts = getOrCreateTraceId (some "default") ts := by
  obtain ⟨h₁evs, h₁st⟩ := runTurn_trace sk uc₁ tools₁ e₁ ts es₁
  set R := (runTurn sk uc₁ tools₁ e₁ ts es₁).2.1 with hR
  obtain ⟨h₂evs, h₂st⟩ := runTurn_trace sk uc₂ tools₂ e₂ R es₂
  obtain ⟨hwf₂, hlt, hle⟩ := getOrCreate_wf sk ts hwf
  refine ⟨(getOrCreateTraceId sk ts).1, (getOrCreateTraceId sk R).1,
    h₁evs, h₂evs, ?_, rfl, rfl⟩
  have hclear := clearTraceId_wf sk (getOrCreateTraceId sk ts).2 hwf₂
  have hlook : lookupTrace (normKey sk) R.traces = none := by
    rw [h₁st]
    exact hclear.2.2
  have halloc : (getOrCreateTraceId sk R).1 = R.nextId := by
    simp only [getOrCreateTraceId, hlook]
  have hnext : R.nextId = (getOrCreateTraceId sk ts).2.nextId := by
    rw [h₁st]
    exact hclear.2.1
  rw [halloc, hnext]
  exact Nat.ne_of_lt hlt

/-- Closed instance of the trace-stability theorem at a concrete two-turn
run on the absent session key. -/
theorem trace_id_stable_witness :
    TraceWF { traces := [], nextId := 0 } = true ∧
    (∃ t₁ t₂ : Nat,
      (∀ ev ∈ (runTurn none "hi" [{ toolName := "t" }]
          { messages := some [⟨"user", Content.str "hi"⟩], usage := some {} }
          { traces := [], nextId := 0 } {}).1, ev.trace = t₁) ∧
      (∀ ev ∈ (runTurn none "again" [] { usage := some {} }
          (runTurn none "hi" [{ toolName := "t" }]
            { messages := some [⟨"user", Content.str "hi"⟩], usage := some {} }
            { traces := [], nextId := 0 } {}).2.1 {}).1, ev.trace = t₂) ∧
      t₁ ≠ t₂ ∧
      getOrCreateTraceId none { traces := [], nextId := 0 } =
        getOrCreateTraceId (some "default") { traces := [], nextId := 0 } ∧
      getOrCreateTraceId (some "") { traces := [], nextId := 0 } =
        getOrCreateTraceId (some "default") { traces := [], nextId := 0 }) :=
  ⟨by decide,
    trace_id_stable_within_turn_fresh_across none "hi" "again" [{ toolName := "t" }]
      [] { messages := some [⟨"user", Content.str "hi"⟩], usage := some {} }
      { usage := some {} } { traces := [], nextId := 0 } {} {} (by decide)⟩
